import Mathlib

/-!
# Verification of the zapatos SQL-fragment compiler (`src/core.ts`)

This file shallowly embeds the recursive SQL-fragment compiler of
`src/core.ts` (class `SQLFragment`, methods `compile` / `compileExpression`,
plus the wrapper classes `Parameter`, `DangerousRawString`, `ColumnNames`,
`ColumnValues`, `ParentColumn` and the sentinel symbols `Default` and `self`)
and proves the specified properties about it.

Modelling conventions:
* A JS object used as a mapping (`Whereable`, `ColumnValues`, `ColumnNames`)
  is modelled by its entry list `List (String × MapVal)`; JS objects have
  distinct keys, so theorems that depend on key uniqueness take a `Nodup`
  hypothesis on the keys.  `Object.keys(x).sort()` followed by per-key value
  lookup is modelled by sorting the entry list by key (`sortByKey`), which
  coincides with the source behaviour on distinct keys.
* Mapping values can be arbitrary JS values; the source only discriminates
  `instanceof SQLFragment`, `=== Default` and `instanceof ParentColumn`, so a
  mapping value is modelled by `MapVal` with exactly those cases plus `plain`
  (an opaque bindable value).  Where the source wraps such a value in
  `new Parameter(...)`, the `ParentColumn` / `Default` objects become the
  opaque values `Value.parentColObj` / `Value.defaultSym`.
* Thrown `Error`s become `Except.error` with a `CompileError` describing the
  two intrinsic error kinds (context errors and unsupported expressions),
  carrying the source's message strings.
* `this.parentTable` is the `thisParentTable` argument of the helper
  functions (the methods read it at entry: `if (this.parentTable)
  parentTable = this.parentTable`).
-/

set_option maxHeartbeats 1000000

namespace Zapatos

/-- Opaque JS values that can end up bound as query parameters.  The source
types parameter payloads as `any`; this inductive samples that universe,
including the `Default` sentinel and a `ParentColumn` instance, which the
`Whereable` / `ColumnValues` branches can wrap in `new Parameter(...)`. -/
inductive Value : Type where
  | int (n : Int)
  | str (s : String)
  | bool (b : Bool)
  | null
  | defaultSym
  | parentColObj (c : String)
  deriving DecidableEq, Repr

mutual

/-- The expression model: the closed set of node kinds `compileExpression`
dispatches on (`src/core.ts`, lines 169-261), in source dispatch order:
nested `SQLFragment`, plain string (table/column identifier),
`DangerousRawString`, array, `Parameter`, the `Default` symbol, the `self`
symbol, `ParentColumn`, `ColumnNames`, `ColumnValues`, a plain object
(`Whereable`), and anything unrecognized (`alien`, carrying the string
interpolation of the offending value). -/
inductive SQLExpr : Type where
  | frag (f : SQLFragment)
  | ident (s : String)
  | raw (s : String)
  | arr (xs : List SQLExpr)
  | param (v : Value)
  | defaultMark : SQLExpr
  | selfMark : SQLExpr
  | parentCol (c : String)
  | colNames (v : NamesVal)
  | colValues (m : List (String × MapVal))
  | whereable (m : List (String × MapVal))
  | alien (desc : String)

/-- The payload of a `ColumnNames` wrapper: either an explicit array of names
or an object whose keys are the names (`Array.isArray` check at line 210). -/
inductive NamesVal : Type where
  | arr (names : List String)
  | obj (m : List (String × MapVal))

/-- A value of a mapping entry, as discriminated by the `ColumnValues` and
`Whereable` branches: a nested `SQLFragment`, a `ParentColumn` instance, the
`Default` symbol, or any other (opaque) value. -/
inductive MapVal : Type where
  | frag (f : SQLFragment)
  | parentCol (c : String)
  | defaultMark : MapVal
  | plain (v : Value)

/-- `class SQLFragment`: literal text segments, interleaved expression nodes,
and the optional `parentTable` pin (line 137).  The `runResultTransform`
function field does not take part in compilation and is passed to `run` as an
argument in this model. -/
inductive SQLFragment : Type where
  | mk (literals : List String) (expressions : List SQLExpr)
      (parentTable : Option String)

end

/-- `interface SQLResultType { text: string; values: any[] }`. -/
structure SQLResultType : Type where
  text : String
  values : List Value
  deriving DecidableEq, Repr

/-- The two intrinsic compiler error kinds.  The source throws plain `Error`s;
the constructor distinguishes the context errors (`self` / `parent` misuse)
from the unsupported-expression fallthrough, and the payload carries the
source's message. -/
inductive CompileError : Type where
  | contextError (msg : String)
  | unsupportedExpression (msg : String)
  deriving DecidableEq, Repr

/-- `expression.charAt(0) === '\x22'` (line 178): does the string begin with a
double-quote character?  (`charAt(0)` of the empty string is `""`, which is
not the quote character.) -/
def startsWithQuote (s : String) : Bool :=
  match s.data with
  | [] => false
  | c :: _ => c == '"'

/-- `Object.keys(x).sort()` + value lookup, modelled as sorting the entry
list by key with JS's default ordinal (code-unit) string comparison. -/
def sortByKey (m : List (String × MapVal)) : List (String × MapVal) :=
  List.insertionSort (fun a b => a.1 ≤ b.1) m

/-- `Array.prototype.sort()` on a list of plain strings. -/
def sortStrings (l : List String) : List String :=
  List.insertionSort (fun a b => a ≤ b) l

theorem perm_sizeOf_eq {α : Type} [SizeOf α] {l₁ l₂ : List α}
    (h : l₁.Perm l₂) : sizeOf l₁ = sizeOf l₂ := by
  induction h with
  | nil => rfl
  | cons x _ ih => simp [ih]
  | swap x y l => simp; omega
  | trans _ _ ih₁ ih₂ => omega

theorem sizeOf_sortByKey (m : List (String × MapVal)) :
    sizeOf (sortByKey m) = sizeOf m :=
  perm_sizeOf_eq (List.perm_insertionSort _ m)

mutual

/-- `SQLFragment.compile` (lines 158-167): append the first literal, then
alternately compile an expression and append the next literal.  A missing
first literal coerces to the string `"undefined"` in JS, as does a missing
expression (which then hits the alien fallthrough inside
`compileExpression`). -/
def SQLFragment.compile (frag : SQLFragment) (result : SQLResultType)
    (parentTable currentColumn : Option String) :
    Except CompileError SQLResultType :=
  match frag with
  | .mk literals expressions thisPT =>
    let parentTable := if thisPT.isSome then thisPT else parentTable
    let result := { result with text := result.text ++ literals.headD "undefined" }
    compileTail thisPT expressions (literals.drop 1) result parentTable currentColumn
termination_by sizeOf frag
decreasing_by all_goals (simp_wf <;> omega)

/-- The `for` loop of `compile` (lines 162-165): for each remaining literal,
compile the matching expression, then append the literal.  Expressions beyond
the literals are ignored (the loop is bounded by `literals.length`); a
literal with no matching expression makes `compileExpression(undefined)`
throw the alien error. -/
def compileTail (thisParentTable : Option String) (expressions : List SQLExpr)
    (literals : List String) (result : SQLResultType)
    (parentTable currentColumn : Option String) :
    Except CompileError SQLResultType :=
  match expressions, literals with
  | _, [] => .ok result
  | [], _ :: _ =>
    .error (.unsupportedExpression "Alien object while interpolating SQL: undefined")
  | e :: es, lit :: lits =>
    match SQLFragment.compileExpression thisParentTable e result parentTable currentColumn with
    | .error err => .error err
    | .ok result =>
      compileTail thisParentTable es lits
        { result with text := result.text ++ lit } parentTable currentColumn
termination_by sizeOf expressions
decreasing_by all_goals (simp_wf <;> omega)

/-- `SQLFragment.compileExpression` (lines 169-261), case by case in source
order. -/
def SQLFragment.compileExpression (thisParentTable : Option String)
    (expression : SQLExpr) (result : SQLResultType)
    (parentTable currentColumn : Option String) :
    Except CompileError SQLResultType :=
  let parentTable := if thisParentTable.isSome then thisParentTable else parentTable
  match expression with
  | .frag f =>
    -- another SQL fragment? recursively compile this one
    f.compile result parentTable currentColumn
  | .ident s =>
    -- a string is a table or column name, so it just needs quoting
    .ok { result with
          text := result.text ++ (if startsWithQuote s then s else "\"" ++ s ++ "\"") }
  | .raw s =>
    -- DangerousRawString passes straight through
    .ok { result with text := result.text ++ s }
  | .arr xs =>
    -- an array's elements are compiled one by one
    compileArray thisParentTable xs result parentTable currentColumn
  | .param v =>
    -- parameters become placeholders plus an entry in the values array
    let values := result.values ++ [v]
    .ok { text := result.text ++ "$" ++ toString values.length, values := values }
  | .defaultMark =>
    .ok { result with text := result.text ++ "DEFAULT" }
  | .selfMark =>
    match currentColumn with
    | none => .error (.contextError "The 'self' column alias has no meaning here")
    | some c => .ok { result with text := result.text ++ "\"" ++ c ++ "\"" }
  | .parentCol c =>
    match parentTable with
    | none => .error (.contextError "The 'parent' table alias has no meaning here")
    | some t =>
      .ok { result with text := result.text ++ "\"" ++ t ++ "\".\"" ++ c ++ "\"" }
  | .colNames v =>
    let columnNames := match v with
      | .arr names => names
      | .obj m => sortStrings (m.map Prod.fst)
    .ok { result with
          text := result.text ++
            String.intercalate ", " (columnNames.map (fun k => "\"" ++ k ++ "\"")) }
  | .colValues m =>
    compileColValues thisParentTable (sortByKey m) true result parentTable currentColumn
  | .whereable m =>
    let sorted := sortByKey m
    if sorted.isEmpty then
      -- an empty object should always match
      .ok { result with text := result.text ++ "TRUE" }
    else
      match compileWhereable thisParentTable sorted true
          { result with text := result.text ++ "(" } parentTable currentColumn with
      | .error err => .error err
      | .ok result => .ok { result with text := result.text ++ ")" }
  | .alien desc =>
    .error (.unsupportedExpression ("Alien object while interpolating SQL: " ++ desc))
termination_by sizeOf expression
decreasing_by all_goals (simp_wf <;> first
  | omega
  | (rw [sizeOf_sortByKey]; omega)
  | (simp [sizeOf_sortByKey]; omega))

/-- The array case of `compileExpression` (line 186). -/
def compileArray (thisParentTable : Option String) (xs : List SQLExpr)
    (result : SQLResultType) (parentTable currentColumn : Option String) :
    Except CompileError SQLResultType :=
  match xs with
  | [] => .ok result
  | e :: es =>
    match SQLFragment.compileExpression thisParentTable e result parentTable currentColumn with
    | .error err => .error err
    | .ok result => compileArray thisParentTable es result parentTable currentColumn
termination_by sizeOf xs
decreasing_by all_goals (simp_wf <;> omega)

/-- The `ColumnValues` loop (lines 220-227): comma separators after the first
entry; a fragment or `Default` value is compiled directly, anything else is
wrapped as a `Parameter`; the entry's key becomes `currentColumn`. -/
def compileColValues (thisParentTable : Option String)
    (entries : List (String × MapVal)) (first : Bool) (result : SQLResultType)
    (parentTable currentColumn : Option String) :
    Except CompileError SQLResultType :=
  match entries with
  | [] => .ok result
  | (columnName, columnValue) :: rest =>
    let result := if first then result else { result with text := result.text ++ ", " }
    let step : Except CompileError SQLResultType :=
      match columnValue with
      | .frag f =>
        SQLFragment.compileExpression thisParentTable (.frag f) result parentTable (some columnName)
      | .defaultMark =>
        SQLFragment.compileExpression thisParentTable .defaultMark result parentTable (some columnName)
      | .parentCol c =>
        SQLFragment.compileExpression thisParentTable (.param (.parentColObj c)) result
          parentTable (some columnName)
      | .plain v =>
        SQLFragment.compileExpression thisParentTable (.param v) result parentTable (some columnName)
    match step with
    | .error err => .error err
    | .ok result =>
      compileColValues thisParentTable rest false result parentTable currentColumn
termination_by sizeOf entries
decreasing_by all_goals (simp_wf <;> omega)

/-- The `Whereable` loop (lines 235-250): `AND` separators after the first
entry; a fragment value becomes `(<compiled fragment>)`; otherwise
`"key" = ` followed by the value, compiled directly if it is a
`ParentColumn` and wrapped as a `Parameter` if not; the entry's key becomes
`currentColumn`. -/
def compileWhereable (thisParentTable : Option String)
    (entries : List (String × MapVal)) (first : Bool) (result : SQLResultType)
    (parentTable currentColumn : Option String) :
    Except CompileError SQLResultType :=
  match entries with
  | [] => .ok result
  | (columnName, columnValue) :: rest =>
    let result := if first then result else { result with text := result.text ++ " AND " }
    let step : Except CompileError SQLResultType :=
      match columnValue with
      | .frag f =>
        match SQLFragment.compileExpression thisParentTable (.frag f)
            { result with text := result.text ++ "(" } parentTable (some columnName) with
        | .error err => .error err
        | .ok r => .ok { r with text := r.text ++ ")" }
      | .parentCol c =>
        SQLFragment.compileExpression thisParentTable (.parentCol c)
          { result with text := result.text ++ "\"" ++ columnName ++ "\" = " }
          parentTable (some columnName)
      | .defaultMark =>
        SQLFragment.compileExpression thisParentTable (.param .defaultSym)
          { result with text := result.text ++ "\"" ++ columnName ++ "\" = " }
          parentTable (some columnName)
      | .plain v =>
        SQLFragment.compileExpression thisParentTable (.param v)
          { result with text := result.text ++ "\"" ++ columnName ++ "\" = " }
          parentTable (some columnName)
    match step with
    | .error err => .error err
    | .ok result =>
      compileWhereable thisParentTable rest false result parentTable currentColumn
termination_by sizeOf entries
decreasing_by all_goals (simp_wf <;> omega)

end

/-- `SQLFragment.run` (lines 146-151), modelled with an explicit submission
trace: the returned list collects every `CompiledQuery` submitted to the
queryable capability, so "never submits on compile failure" is visible in the
result shape.  The `queryable.query` call and the fragment's
`runResultTransform` field are passed as function arguments (fragments are
modelled as pure data); the `verbose` diagnostic logging performs no
computation and is omitted. -/
def SQLFragment.run {QueryResult RunResult : Type} (frag : SQLFragment)
    (queryable : SQLResultType → QueryResult)
    (runResultTransform : QueryResult → RunResult) :
    Except CompileError (List SQLResultType × RunResult) :=
  match frag.compile { text := "", values := [] } none none with
  | .error err => .error err
  | .ok query => .ok ([query], runResultTransform (queryable query))

mutual

/-- The number of `Parameter`-contributing nodes in the recursive expansion
of a fragment: one per `Parameter`, plus, inside `ColumnValues` / `Whereable`
mappings, one per entry whose value the compiler wraps in `new
Parameter(...)`.  Counts exactly the expressions the `compile` loop consumes
(the loop is bounded by the literal count). -/
def SQLFragment.paramCount : SQLFragment → Nat
  | .mk literals expressions _ => countTail expressions (literals.drop 1)

/-- Parameter count of the expressions consumed by the `compile` loop. -/
def countTail : List SQLExpr → List String → Nat
  | _, [] => 0
  | [], _ :: _ => 0
  | e :: es, _ :: lits => countExpr e + countTail es lits

/-- Parameter count of one expression's expansion. -/
def countExpr : SQLExpr → Nat
  | .frag f => f.paramCount
  | .ident _ => 0
  | .raw _ => 0
  | .arr xs => countArray xs
  | .param _ => 1
  | .defaultMark => 0
  | .selfMark => 0
  | .parentCol _ => 0
  | .colNames _ => 0
  | .colValues m => countColValues m
  | .whereable m => countWhereable m
  | .alien _ => 0

/-- Parameter count of an array of expressions. -/
def countArray : List SQLExpr → Nat
  | [] => 0
  | e :: es => countExpr e + countArray es

/-- Parameter count of `ColumnValues` entries: fragments recurse, `Default`
compiles to a keyword, everything else: one parameter each. -/
def countColValues : List (String × MapVal) → Nat
  | [] => 0
  | (_, v) :: rest =>
    (match v with
     | .frag f => f.paramCount
     | .defaultMark => 0
     | .parentCol _ => 1
     | .plain _ => 1) + countColValues rest

/-- Parameter count of `Whereable` entries: fragments recurse, `ParentColumn`
compiles to an identifier pair, everything else (including `Default`): one
parameter each. -/
def countWhereable : List (String × MapVal) → Nat
  | [] => 0
  | (_, v) :: rest =>
    (match v with
     | .frag f => f.paramCount
     | .parentCol _ => 0
     | .defaultMark => 1
     | .plain _ => 1) + countWhereable rest

end

/-- Per-entry parameter count for `ColumnValues` (non-recursive view). -/
def countEntryCV : String × MapVal → Nat
  | (_, .frag f) => f.paramCount
  | (_, .defaultMark) => 0
  | (_, .parentCol _) => 1
  | (_, .plain _) => 1

/-- Per-entry parameter count for `Whereable` (non-recursive view). -/
def countEntryWh : String × MapVal → Nat
  | (_, .frag f) => f.paramCount
  | (_, .parentCol _) => 0
  | (_, .defaultMark) => 1
  | (_, .plain _) => 1

theorem countColValues_eq_sum (l : List (String × MapVal)) :
    countColValues l = (l.map countEntryCV).sum := by
  induction l with
  | nil => simp [countColValues]
  | cons p rest ih =>
    obtain ⟨k, v⟩ := p
    cases v <;> simp [countColValues, countEntryCV, ih]

theorem countWhereable_eq_sum (l : List (String × MapVal)) :
    countWhereable l = (l.map countEntryWh).sum := by
  induction l with
  | nil => simp [countWhereable]
  | cons p rest ih =>
    obtain ⟨k, v⟩ := p
    cases v <;> simp [countWhereable, countEntryWh, ih]

theorem countColValues_perm {l₁ l₂ : List (String × MapVal)} (h : l₁.Perm l₂) :
    countColValues l₁ = countColValues l₂ := by
  simp only [countColValues_eq_sum]
  exact (h.map countEntryCV).sum_eq

theorem countWhereable_perm {l₁ l₂ : List (String × MapVal)} (h : l₁.Perm l₂) :
    countWhereable l₁ = countWhereable l₂ := by
  simp only [countWhereable_eq_sum]
  exact (h.map countEntryWh).sum_eq

theorem countColValues_sortByKey (m : List (String × MapVal)) :
    countColValues (sortByKey m) = countColValues m :=
  countColValues_perm (List.perm_insertionSort _ m)

theorem countWhereable_sortByKey (m : List (String × MapVal)) :
    countWhereable (sortByKey m) = countWhereable m :=
  countWhereable_perm (List.perm_insertionSort _ m)

/-- A piece of compiled text: literal text, or a `$n` placeholder token
emitted for a `Parameter`.  The placeholder-numbering invariant is stated by
decomposing the compiled text into such chunks. -/
inductive Chunk : Type where
  | lit (s : String)
  | placeholder (n : Nat)
  deriving DecidableEq, Repr

/-- The text of one chunk; a placeholder `n` renders as `$n`. -/
def renderChunk : Chunk → String
  | .lit s => s
  | .placeholder n => "$" ++ toString n

/-- Concatenated text of a chunk list. -/
def renderChunks : List Chunk → String
  | [] => ""
  | c :: cs => renderChunk c ++ renderChunks cs

/-- The placeholder numbers of a chunk list, in order of appearance. -/
def chunkPlaceholders (cs : List Chunk) : List Nat :=
  cs.filterMap (fun c => match c with | .placeholder n => some n | .lit _ => none)

theorem renderChunks_append (cs₁ cs₂ : List Chunk) :
    renderChunks (cs₁ ++ cs₂) = renderChunks cs₁ ++ renderChunks cs₂ := by
  induction cs₁ with
  | nil => simp [renderChunks]
  | cons c cs ih => simp [renderChunks, ih, String.append_assoc]

theorem chunkPlaceholders_append (cs₁ cs₂ : List Chunk) :
    chunkPlaceholders (cs₁ ++ cs₂) = chunkPlaceholders cs₁ ++ chunkPlaceholders cs₂ := by
  simp [chunkPlaceholders]

/-- Postcondition of one compilation step: the values list grows by exactly
`n` entries, and the text grows by a chunk list whose placeholders are
numbered consecutively starting just above the incoming values count. -/
def CompilePost (acc res : SQLResultType) (n : Nat) : Prop :=
  res.values.length = acc.values.length + n ∧
  ∃ cs : List Chunk,
    res.text = acc.text ++ renderChunks cs ∧
    chunkPlaceholders cs = List.range' (acc.values.length + 1) n

theorem CompilePost.rfl (acc : SQLResultType) : CompilePost acc acc 0 :=
  ⟨by simp, [], by simp [renderChunks], by simp [chunkPlaceholders]⟩

theorem CompilePost.trans {acc mid res : SQLResultType} {m n : Nat}
    (h₁ : CompilePost acc mid m) (h₂ : CompilePost mid res n) :
    CompilePost acc res (m + n) := by
  obtain ⟨len₁, cs₁, text₁, ph₁⟩ := h₁
  obtain ⟨len₂, cs₂, text₂, ph₂⟩ := h₂
  refine ⟨by omega, cs₁ ++ cs₂, ?_, ?_⟩
  · rw [text₂, text₁, renderChunks_append, String.append_assoc]
  · rw [chunkPlaceholders_append, ph₁, ph₂, len₁]
    have : acc.values.length + m + 1 = acc.values.length + 1 + 1 * m := by omega
    rw [this, List.range'_append, Nat.add_comm n m]

/-- Appending plain text is a zero-parameter step. -/
theorem CompilePost.text (acc : SQLResultType) (s : String) :
    CompilePost acc { acc with text := acc.text ++ s } 0 :=
  ⟨by simp, [.lit s], by simp [renderChunks, renderChunk, String.append_empty],
    by simp [chunkPlaceholders]⟩

/-- A `Parameter` step: one new value, one placeholder numbered by the new
values count. -/
theorem CompilePost.param (acc : SQLResultType) (v : Value) :
    CompilePost acc
      { text := acc.text ++ "$" ++ toString (acc.values ++ [v]).length,
        values := acc.values ++ [v] } 1 := by
  refine ⟨by simp, [.placeholder (acc.values.length + 1)], ?_, ?_⟩
  · simp [renderChunks, renderChunk, String.append_empty, String.append_assoc]
  · simp [chunkPlaceholders, List.range']

/-- Text already appended to the input accumulator can be absorbed as a
leading literal chunk. -/
theorem CompilePost.of_textInput {acc res : SQLResultType} {n : Nat} (s : String)
    (h : CompilePost { acc with text := acc.text ++ s } res n) :
    CompilePost acc res n := by
  have := CompilePost.trans (CompilePost.text acc s) h
  simpa using this

/-- Appending a trailing literal to the output preserves the postcondition. -/
theorem CompilePost.textOutput {acc res : SQLResultType} {n : Nat} (s : String)
    (h : CompilePost acc res n) :
    CompilePost acc { res with text := res.text ++ s } n := by
  have := CompilePost.trans h (CompilePost.text res s)
  simpa using this

end Zapatos

namespace Zapatos

set_option maxHeartbeats 2000000

theorem CompilePost.zero (acc : SQLResultType) {res : SQLResultType} (s : String)
    (ht : res.text = acc.text ++ s) (hv : res.values = acc.values) :
    CompilePost acc res 0 := by
  refine ⟨by simp [hv], [.lit s], ?_, by simp [chunkPlaceholders]⟩
  simp [renderChunks, renderChunk, String.append_empty, ht]

theorem CompilePost.one (acc : SQLResultType) {res : SQLResultType} (v : Value)
    (ht : res.text = acc.text ++ "$" ++ toString (acc.values.length + 1))
    (hv : res.values = acc.values ++ [v]) :
    CompilePost acc res 1 := by
  refine ⟨by simp [hv], [.placeholder (acc.values.length + 1)], ?_,
    by simp [chunkPlaceholders, List.range']⟩
  simp [renderChunks, renderChunk, String.append_empty, ht, String.append_assoc]

theorem CompilePost.absorbInput {acc pre res : SQLResultType} {n : Nat} (s : String)
    (hpre : pre.text = acc.text ++ s) (hval : pre.values = acc.values)
    (h : CompilePost pre res n) : CompilePost acc res n := by
  simpa using (CompilePost.zero acc s hpre hval).trans h

theorem CompilePost.appendOutput {acc res resOut : SQLResultType} {n : Nat} (s : String)
    (hto : resOut.text = res.text ++ s) (hvo : resOut.values = res.values)
    (h : CompilePost acc res n) : CompilePost acc resOut n := by
  simpa using h.trans (CompilePost.zero res s hto hvo)

theorem countColValues_nil : countColValues [] = 0 := by
  rw [countColValues_eq_sum]; simp

theorem countColValues_cons (k : String) (v : MapVal) (rest : List (String × MapVal)) :
    countColValues ((k, v) :: rest) = countEntryCV (k, v) + countColValues rest := by
  rw [countColValues_eq_sum, countColValues_eq_sum]; simp

theorem countWhereable_nil : countWhereable [] = 0 := by
  rw [countWhereable_eq_sum]; simp

theorem countWhereable_cons (k : String) (v : MapVal) (rest : List (String × MapVal)) :
    countWhereable ((k, v) :: rest) = countEntryWh (k, v) + countWhereable rest := by
  rw [countWhereable_eq_sum, countWhereable_eq_sum]; simp

theorem compilePost_all (N : Nat) :
    (∀ frag acc pt cc res, sizeOf frag ≤ N →
      SQLFragment.compile frag acc pt cc = .ok res →
      CompilePost acc res frag.paramCount) ∧
    (∀ tpt exprs lits acc pt cc res, sizeOf exprs ≤ N →
      compileTail tpt exprs lits acc pt cc = .ok res →
      CompilePost acc res (countTail exprs lits)) ∧
    (∀ tpt e acc pt cc res, sizeOf e ≤ N →
      SQLFragment.compileExpression tpt e acc pt cc = .ok res →
      CompilePost acc res (countExpr e)) ∧
    (∀ tpt xs acc pt cc res, sizeOf xs ≤ N →
      compileArray tpt xs acc pt cc = .ok res →
      CompilePost acc res (countArray xs)) ∧
    (∀ tpt entries first acc pt cc res, sizeOf entries ≤ N →
      compileColValues tpt entries first acc pt cc = .ok res →
      CompilePost acc res (countColValues entries)) ∧
    (∀ tpt entries first acc pt cc res, sizeOf entries ≤ N →
      compileWhereable tpt entries first acc pt cc = .ok res →
      CompilePost acc res (countWhereable entries)) := by
  induction N using Nat.strong_induction_on with
  | _ N IH =>
  refine ⟨?_, ?_, ?_, ?_, ?_, ?_⟩
  · -- compile
    rintro ⟨lits, exprs, tpt⟩ acc pt cc res hsz h
    simp only [SQLFragment.compile] at h
    have hlt : sizeOf exprs < N := by simp at hsz; omega
    have hpost := (IH (sizeOf exprs) hlt).2.1 tpt exprs (lits.drop 1) _ _ cc res le_rfl h
    simpa only [SQLFragment.paramCount] using hpost.of_textInput _
  · -- compileTail
    intro tpt exprs lits acc pt cc res hsz h
    match exprs, lits with
    | exprs, [] =>
      simp only [compileTail, Except.ok.injEq] at h
      subst h
      simpa only [countTail] using CompilePost.rfl acc
    | [], _ :: _ => simp only [compileTail] at h; exact absurd h (by simp)
    | e :: es, lit :: lits =>
      simp only [compileTail] at h
      cases heq : SQLFragment.compileExpression tpt e acc pt cc with
      | error err => rw [heq] at h; exact absurd h (by simp)
      | ok mid =>
        rw [heq] at h
        simp only at h
        have h₁ : sizeOf e < N := by simp at hsz; omega
        have h₂ : sizeOf es < N := by simp at hsz; omega
        have hp₁ := (IH (sizeOf e) h₁).2.2.1 tpt e acc pt cc mid le_rfl heq
        have hp₂ := (IH (sizeOf es) h₂).2.1 tpt es lits _ pt cc res le_rfl h
        simpa only [countTail] using hp₁.trans (hp₂.of_textInput lit)
  · -- compileExpression
    intro tpt e acc pt cc res hsz h
    match e with
    | .frag f =>
      simp only [SQLFragment.compileExpression] at h
      have h₁ : sizeOf f < N := by simp at hsz; omega
      have hp := (IH (sizeOf f) h₁).1 f acc _ cc res le_rfl h
      simpa only [countExpr] using hp
    | .ident s =>
      simp only [SQLFragment.compileExpression, Except.ok.injEq] at h
      subst h
      simpa only [countExpr] using CompilePost.text acc _
    | .raw s =>
      simp only [SQLFragment.compileExpression, Except.ok.injEq] at h
      subst h
      simpa only [countExpr] using CompilePost.text acc _
    | .arr xs =>
      simp only [SQLFragment.compileExpression] at h
      have h₁ : sizeOf xs < N := by simp at hsz; omega
      have hp := (IH (sizeOf xs) h₁).2.2.2.1 tpt xs acc _ cc res le_rfl h
      simpa only [countExpr] using hp
    | .param v =>
      simp only [SQLFragment.compileExpression, Except.ok.injEq] at h
      subst h
      simp only [countExpr]
      exact CompilePost.one acc v (by simp) rfl
    | .defaultMark =>
      simp only [SQLFragment.compileExpression, Except.ok.injEq] at h
      subst h
      simpa only [countExpr] using CompilePost.text acc _
    | .selfMark =>
      cases cc with
      | none => simp only [SQLFragment.compileExpression] at h; exact absurd h (by simp)
      | some c =>
        simp only [SQLFragment.compileExpression, Except.ok.injEq] at h
        subst h
        simp only [countExpr]
        exact CompilePost.zero acc ("\"" ++ c ++ "\"") (by simp [String.append_assoc]) rfl
    | .parentCol c =>
      simp only [SQLFragment.compileExpression] at h
      cases heff : (if tpt.isSome then tpt else pt) with
      | none => rw [heff] at h; exact absurd h (by simp)
      | some t =>
        rw [heff] at h
        simp only [Except.ok.injEq] at h
        subst h
        simp only [countExpr]
        exact CompilePost.zero acc ("\"" ++ t ++ "\".\"" ++ c ++ "\"")
          (by simp [String.append_assoc]) rfl
    | .colNames v =>
      cases v with
      | arr names =>
        simp only [SQLFragment.compileExpression, Except.ok.injEq] at h
        subst h
        simpa only [countExpr] using CompilePost.text acc _
      | obj m =>
        simp only [SQLFragment.compileExpression, Except.ok.injEq] at h
        subst h
        simpa only [countExpr] using CompilePost.text acc _
    | .colValues m =>
      simp only [SQLFragment.compileExpression] at h
      have h₁ : sizeOf (sortByKey m) < N := by
        rw [sizeOf_sortByKey]; simp at hsz; omega
      have hp := (IH _ h₁).2.2.2.2.1 tpt (sortByKey m) true acc _ cc res le_rfl h
      simpa only [countExpr, countColValues_sortByKey] using hp
    | .whereable m =>
      simp only [SQLFragment.compileExpression] at h
      split at h
      · rename_i hemp
        simp only [Except.ok.injEq] at h
        subst h
        have hm0 : sortByKey m = [] := by simpa using hemp
        simp only [countExpr]
        rw [← countWhereable_sortByKey m, hm0, countWhereable_nil]
        exact CompilePost.text acc "TRUE"
      · cases heq : compileWhereable tpt (sortByKey m) true
            { acc with text := acc.text ++ "(" } (if tpt.isSome then tpt else pt) cc with
        | error err => rw [heq] at h; exact absurd h (by simp)
        | ok r =>
          rw [heq] at h
          simp only [Except.ok.injEq] at h
          subst h
          have h₁ : sizeOf (sortByKey m) < N := by rw [sizeOf_sortByKey]; simp at hsz; omega
          have hp := (IH _ h₁).2.2.2.2.2 tpt (sortByKey m) true
            { acc with text := acc.text ++ "(" } _ cc r le_rfl heq
          have hlift : CompilePost acc { r with text := r.text ++ ")" }
              (countWhereable (sortByKey m)) :=
            CompilePost.appendOutput ")" (by simp) (by simp)
              (CompilePost.absorbInput "(" (by simp) (by simp) hp)
          simpa only [countExpr, countWhereable_sortByKey] using hlift
    | .alien desc => simp only [SQLFragment.compileExpression] at h; exact absurd h (by simp)
  · -- compileArray
    intro tpt xs acc pt cc res hsz h
    match xs with
    | [] =>
      simp only [compileArray, Except.ok.injEq] at h
      subst h
      simpa only [countArray] using CompilePost.rfl acc
    | e :: es =>
      simp only [compileArray] at h
      cases heq : SQLFragment.compileExpression tpt e acc pt cc with
      | error err => rw [heq] at h; exact absurd h (by simp)
      | ok mid =>
        rw [heq] at h
        simp only at h
        have h₁ : sizeOf e < N := by simp at hsz; omega
        have h₂ : sizeOf es < N := by simp at hsz; omega
        have hp₁ := (IH (sizeOf e) h₁).2.2.1 tpt e acc pt cc mid le_rfl heq
        have hp₂ := (IH (sizeOf es) h₂).2.2.2.1 tpt es mid pt cc res le_rfl h
        simpa only [countArray] using hp₁.trans hp₂
  · -- compileColValues
    intro tpt entries first acc pt cc res hsz h
    match entries with
    | [] =>
      simp only [compileColValues, Except.ok.injEq] at h
      subst h
      simpa only [countColValues_nil] using CompilePost.rfl acc
    | (k, .frag f) :: rest =>
      simp only [compileColValues] at h
      cases heq : SQLFragment.compileExpression tpt (.frag f)
          (if first = true then acc else { acc with text := acc.text ++ ", " }) pt (some k) with
      | error err => rw [heq] at h; exact absurd h (by simp)
      | ok mid =>
        rw [heq] at h
        simp only at h
        have h₁ : sizeOf (SQLExpr.frag f) < N := by simp at hsz ⊢; omega
        have h₂ : sizeOf rest < N := by simp at hsz; omega
        have hp₁ := (IH _ h₁).2.2.1 tpt (.frag f) _ pt (some k) mid le_rfl heq
        have hp₂ := (IH _ h₂).2.2.2.2.1 tpt rest false mid pt cc res le_rfl h
        have hchain : CompilePost acc res (countExpr (.frag f) + countColValues rest) := by
          cases first with
          | true => exact (CompilePost.absorbInput "" (by simp) (by simp) hp₁).trans hp₂
          | false => exact (CompilePost.absorbInput ", " (by simp) (by simp) hp₁).trans hp₂
        simpa only [countColValues_cons, countEntryCV, countExpr] using hchain
    | (k, .defaultMark) :: rest =>
      simp only [compileColValues, SQLFragment.compileExpression] at h
      have h₂ : sizeOf rest < N := by simp at hsz; omega
      have hp₂ := (IH _ h₂).2.2.2.2.1 tpt rest false _ pt cc res le_rfl h
      have hchain : CompilePost acc res (0 + countColValues rest) := by
        cases first with
        | true => exact (CompilePost.zero acc "DEFAULT" (by simp) (by simp)).trans hp₂
        | false => exact (CompilePost.zero acc (", " ++ "DEFAULT")
            (by simp [String.append_assoc]) (by simp)).trans hp₂
      simpa only [countColValues_cons, countEntryCV] using hchain
    | (k, .parentCol c) :: rest =>
      simp only [compileColValues, SQLFragment.compileExpression] at h
      have h₂ : sizeOf rest < N := by simp at hsz; omega
      have hp₂ := (IH _ h₂).2.2.2.2.1 tpt rest false _ pt cc res le_rfl h
      have hchain : CompilePost acc res (1 + countColValues rest) := by
        cases first with
        | true => exact (CompilePost.one acc (.parentColObj c) (by simp) (by simp)).trans hp₂
        | false =>
          have hstep := (CompilePost.one { acc with text := acc.text ++ ", " }
            (.parentColObj c) (by simp) (by simp)).trans hp₂
          exact CompilePost.absorbInput ", " (by simp) (by simp) hstep
      simpa only [countColValues_cons, countEntryCV] using hchain
    | (k, .plain v) :: rest =>
      simp only [compileColValues, SQLFragment.compileExpression] at h
      have h₂ : sizeOf rest < N := by simp at hsz; omega
      have hp₂ := (IH _ h₂).2.2.2.2.1 tpt rest false _ pt cc res le_rfl h
      have hchain : CompilePost acc res (1 + countColValues rest) := by
        cases first with
        | true => exact (CompilePost.one acc v (by simp) (by simp)).trans hp₂
        | false =>
          have hstep := (CompilePost.one { acc with text := acc.text ++ ", " }
            v (by simp) (by simp)).trans hp₂
          exact CompilePost.absorbInput ", " (by simp) (by simp) hstep
      simpa only [countColValues_cons, countEntryCV] using hchain
  · -- compileWhereable
    intro tpt entries first acc pt cc res hsz h
    match entries with
    | [] =>
      simp only [compileWhereable, Except.ok.injEq] at h
      subst h
      simpa only [countWhereable_nil] using CompilePost.rfl acc
    | (k, .frag f) :: rest =>
      simp only [compileWhereable] at h
      cases heq : SQLFragment.compileExpression tpt (.frag f)
          { text := (if first = true then acc
              else { acc with text := acc.text ++ " AND " }).text ++ "(",
            values := (if first = true then acc
              else { acc with text := acc.text ++ " AND " }).values } pt (some k) with
      | error err => rw [heq] at h; exact absurd h (by simp)
      | ok r =>
        rw [heq] at h
        simp only at h
        have h₁ : sizeOf (SQLExpr.frag f) < N := by simp at hsz ⊢; omega
        have h₂ : sizeOf rest < N := by simp at hsz; omega
        have hp₁ := (IH _ h₁).2.2.1 tpt (.frag f) _ pt (some k) r le_rfl heq
        have hp₂ := (IH _ h₂).2.2.2.2.2 tpt rest false
          { r with text := r.text ++ ")" } pt cc res le_rfl h
        have hchain : CompilePost acc res (countExpr (.frag f) + countWhereable rest) := by
          cases first with
          | true =>
            exact (CompilePost.appendOutput ")" (by simp) (by simp)
              (CompilePost.absorbInput "(" (by simp) (by simp) hp₁)).trans hp₂
          | false =>
            exact (CompilePost.appendOutput ")" (by simp) (by simp)
              (CompilePost.absorbInput " AND ("
                (by simp [String.append_assoc]) (by simp) hp₁)).trans hp₂
        simpa only [countWhereable_cons, countEntryWh, countExpr] using hchain
    | (k, .parentCol c) :: rest =>
      simp only [compileWhereable, SQLFragment.compileExpression] at h
      cases heff : (if tpt.isSome then tpt else pt) with
      | none => rw [heff] at h; exact absurd h (by simp)
      | some t =>
        rw [heff] at h
        simp only at h
        have h₂ : sizeOf rest < N := by simp at hsz; omega
        have hp₂ := (IH _ h₂).2.2.2.2.2 tpt rest false _ pt cc res le_rfl h
        have hchain : CompilePost acc res (0 + countWhereable rest) := by
          cases first with
          | true =>
            exact (CompilePost.zero acc
              ("\"" ++ k ++ "\" = \"" ++ t ++ "\".\"" ++ c ++ "\"")
              (by simp [String.append_assoc]) (by simp)).trans hp₂
          | false =>
            exact (CompilePost.zero acc
              (" AND \"" ++ k ++ "\" = \"" ++ t ++ "\".\"" ++ c ++ "\"")
              (by simp [String.append_assoc]) (by simp)).trans hp₂
        simpa only [countWhereable_cons, countEntryWh] using hchain
    | (k, .defaultMark) :: rest =>
      simp only [compileWhereable, SQLFragment.compileExpression] at h
      have h₂ : sizeOf rest < N := by simp at hsz; omega
      have hp₂ := (IH _ h₂).2.2.2.2.2 tpt rest false _ pt cc res le_rfl h
      have hchain : CompilePost acc res (1 + countWhereable rest) := by
        cases first with
        | true =>
          have hstep := (CompilePost.one
            { acc with text := acc.text ++ ("\"" ++ k ++ "\" = ") }
            .defaultSym (by simp [String.append_assoc]) (by simp)).trans hp₂
          exact CompilePost.absorbInput ("\"" ++ k ++ "\" = ") (by simp) (by simp) hstep
        | false =>
          have hstep := (CompilePost.one
            { acc with text := acc.text ++ (" AND \"" ++ k ++ "\" = ") }
            .defaultSym (by simp [String.append_assoc]) (by simp)).trans hp₂
          exact CompilePost.absorbInput (" AND \"" ++ k ++ "\" = ")
            (by simp [String.append_assoc]) (by simp) hstep
      simpa only [countWhereable_cons, countEntryWh] using hchain
    | (k, .plain v) :: rest =>
      simp only [compileWhereable, SQLFragment.compileExpression] at h
      have h₂ : sizeOf rest < N := by simp at hsz; omega
      have hp₂ := (IH _ h₂).2.2.2.2.2 tpt rest false _ pt cc res le_rfl h
      have hchain : CompilePost acc res (1 + countWhereable rest) := by
        cases first with
        | true =>
          have hstep := (CompilePost.one
            { acc with text := acc.text ++ ("\"" ++ k ++ "\" = ") }
            v (by simp [String.append_assoc]) (by simp)).trans hp₂
          exact CompilePost.absorbInput ("\"" ++ k ++ "\" = ") (by simp) (by simp) hstep
        | false =>
          have hstep := (CompilePost.one
            { acc with text := acc.text ++ (" AND \"" ++ k ++ "\" = ") }
            v (by simp [String.append_assoc]) (by simp)).trans hp₂
          exact CompilePost.absorbInput (" AND \"" ++ k ++ "\" = ")
            (by simp [String.append_assoc]) (by simp) hstep
      simpa only [countWhereable_cons, countEntryWh] using hchain

end Zapatos

namespace Zapatos

/-- C1: for every fragment whose recursive expansion (through nested
fragments, column-value lists and mappings) contributes `N` `Parameter`
values (`paramCount`), a successful compilation from a fresh empty
accumulator produces a values list of length exactly `N`, and a text that
decomposes into chunks whose placeholder tokens are exactly `$1 .. $N`,
numbered in strictly increasing order of first appearance (so the `n`-th
placeholder is bound by `values[n-1]`); sentinel markers, parent-column
references, raw text and identifiers contribute only literal chunks and no
value. -/
theorem compile_placeholder_numbering (frag : SQLFragment) (pt cc : Option String)
    (res : SQLResultType)
    (h : frag.compile { text := "", values := [] } pt cc = .ok res) :
    res.values.length = frag.paramCount ∧
    ∃ cs : List Chunk,
      res.text = renderChunks cs ∧
      chunkPlaceholders cs = List.range' 1 frag.paramCount := by
  obtain ⟨hlen, cs, htext, hph⟩ :=
    (compilePost_all (sizeOf frag)).1 frag { text := "", values := [] } pt cc res le_rfl h
  refine ⟨by simpa using hlen, cs, ?_, by simpa using hph⟩
  simpa [String.empty_append] using htext

/-- Witness for C1 at a concrete fragment combining a `Parameter`, a pinned
`parentTable`, and a `Whereable` mapping given in unsorted key order. -/
theorem compile_placeholder_numbering_witness :
    SQLFragment.compile
        (.mk ["INSERT ", " ", ""]
          [.param (.int 7), .whereable [("b", .plain (.int 2)), ("a", .parentCol "x")]]
          (some "t"))
        { text := "", values := [] } none none =
      .ok { text := "INSERT $1 (\"a\" = \"t\".\"x\" AND \"b\" = $2)",
            values := [.int 7, .int 2] } ∧
    (SQLResultType.mk "INSERT $1 (\"a\" = \"t\".\"x\" AND \"b\" = $2)"
        [.int 7, .int 2]).values.length =
      SQLFragment.paramCount
        (.mk ["INSERT ", " ", ""]
          [.param (.int 7), .whereable [("b", .plain (.int 2)), ("a", .parentCol "x")]]
          (some "t")) ∧
    ∃ cs : List Chunk,
      (SQLResultType.mk "INSERT $1 (\"a\" = \"t\".\"x\" AND \"b\" = $2)"
          [.int 7, .int 2]).text = renderChunks cs ∧
      chunkPlaceholders cs = List.range' 1
        (SQLFragment.paramCount
          (.mk ["INSERT ", " ", ""]
            [.param (.int 7), .whereable [("b", .plain (.int 2)), ("a", .parentCol "x")]]
            (some "t"))) := by
  have hcompile :
      SQLFragment.compile
          (.mk ["INSERT ", " ", ""]
            [.param (.int 7), .whereable [("b", .plain (.int 2)), ("a", .parentCol "x")]]
            (some "t"))
          { text := "", values := [] } none none =
        .ok { text := "INSERT $1 (\"a\" = \"t\".\"x\" AND \"b\" = $2)",
              values := [.int 7, .int 2] } := by
    simp +decide [SQLFragment.compile, compileTail, SQLFragment.compileExpression,
      compileWhereable, sortByKey, List.insertionSort, List.orderedInsert]
  exact ⟨hcompile, compile_placeholder_numbering _ none none _ hcompile⟩

/-- C7: compilation is deterministic — two compilations of the same fragment
with the same ambient context and the same starting accumulator produce
byte-identical text and element-wise identical values.  (Fragments are
modelled as immutable data, so a compilation cannot alter the fragment's
literals, expressions, pinned `parentTable` or transform by construction.) -/
theorem compile_deterministic (frag : SQLFragment) (acc : SQLResultType)
    (pt cc : Option String) (res₁ res₂ : SQLResultType)
    (h₁ : frag.compile acc pt cc = .ok res₁)
    (h₂ : frag.compile acc pt cc = .ok res₂) :
    res₁.text = res₂.text ∧ res₁.values = res₂.values := by
  rw [h₁, Except.ok.injEq] at h₂
  exact ⟨by rw [h₂], by rw [h₂]⟩

/-- Witness for C7 at a concrete fragment. -/
theorem compile_deterministic_witness :
    SQLFragment.compile (.mk ["SELECT ", ""] [.param (.str "v")] none)
        { text := "", values := [] } none none =
      .ok { text := "SELECT $1", values := [.str "v"] } ∧
    (SQLResultType.mk "SELECT $1" [.str "v"]).text =
        (SQLResultType.mk "SELECT $1" [.str "v"]).text ∧
      (SQLResultType.mk "SELECT $1" [.str "v"]).values =
        (SQLResultType.mk "SELECT $1" [.str "v"]).values := by
  have hcompile :
      SQLFragment.compile (.mk ["SELECT ", ""] [.param (.str "v")] none)
          { text := "", values := [] } none none =
        .ok { text := "SELECT $1", values := [.str "v"] } := by
    simp +decide [SQLFragment.compile, compileTail, SQLFragment.compileExpression]
  exact ⟨hcompile, compile_deterministic _ _ none none _ _ hcompile hcompile⟩

end Zapatos

namespace Zapatos

/-- C4: a `self` marker compiled with no current column in context raises a
ContextError, and a `ParentColumn` reference compiled with no parent table in
context (neither inherited via the `parentTable` argument nor pinned on the
enclosing fragment) raises a ContextError; when the respective context value
is present, `self` appends the quoted current column name and `ParentColumn`
appends `"parentTable"."col"` without error. -/
theorem context_errors :
    (∀ (tpt : Option String) (acc : SQLResultType) (pt : Option String),
      SQLFragment.compileExpression tpt .selfMark acc pt none =
        .error (.contextError "The 'self' column alias has no meaning here")) ∧
    (∀ (acc : SQLResultType) (cc : Option String) (c : String),
      SQLFragment.compileExpression none (.parentCol c) acc none cc =
        .error (.contextError "The 'parent' table alias has no meaning here")) ∧
    (∀ (tpt : Option String) (acc : SQLResultType) (pt : Option String) (col : String),
      SQLFragment.compileExpression tpt .selfMark acc pt (some col) =
        .ok { acc with text := acc.text ++ "\"" ++ col ++ "\"" }) ∧
    (∀ (t : String) (acc : SQLResultType) (pt cc : Option String) (c : String),
      SQLFragment.compileExpression (some t) (.parentCol c) acc pt cc =
        .ok { acc with text := acc.text ++ "\"" ++ t ++ "\".\"" ++ c ++ "\"" }) ∧
    (∀ (t : String) (acc : SQLResultType) (cc : Option String) (c : String),
      SQLFragment.compileExpression none (.parentCol c) acc (some t) cc =
        .ok { acc with text := acc.text ++ "\"" ++ t ++ "\".\"" ++ c ++ "\"" }) := by
  refine ⟨?_, ?_, ?_, ?_, ?_⟩ <;> intros <;>
    simp [SQLFragment.compileExpression, String.append_assoc]

/-- C5: any expression node that is not one of the recognized kinds falls
through every discriminant test and raises an UnsupportedExpressionError
carrying a description of the offending value — never a silent success and
never a different error. -/
theorem unsupported_expression_error (tpt : Option String) (desc : String)
    (acc : SQLResultType) (pt cc : Option String) :
    SQLFragment.compileExpression tpt (.alien desc) acc pt cc =
      .error (.unsupportedExpression ("Alien object while interpolating SQL: " ++ desc)) := by
  simp [SQLFragment.compileExpression]

/-- C8: a `ColumnNames` wrapper around an explicit empty array compiles to
the empty string — no text, no placeholder, no value, and no error. -/
theorem colNames_empty_array (tpt : Option String) (acc : SQLResultType)
    (pt cc : Option String) :
    SQLFragment.compileExpression tpt (.colNames (.arr [])) acc pt cc = .ok acc := by
  simp [SQLFragment.compileExpression, String.intercalate, String.append_empty]

/-- C6: both error kinds are raised synchronously during `compile`; if
compilation fails, `run` propagates the same error and submits nothing to
the queryable capability (its submission trace is empty — the error shape
carries no submitted query), and if compilation succeeds, `run` submits
exactly the compiled query once and returns the transformed query result. -/
theorem run_fail_fast {QueryResult RunResult : Type} (frag : SQLFragment)
    (queryable : SQLResultType → QueryResult)
    (runResultTransform : QueryResult → RunResult) :
    (∀ e, frag.compile { text := "", values := [] } none none = .error e →
      frag.run queryable runResultTransform = .error e) ∧
    (∀ res, frag.compile { text := "", values := [] } none none = .ok res →
      frag.run queryable runResultTransform =
        .ok ([res], runResultTransform (queryable res))) := by
  constructor
  · intro e he
    simp [SQLFragment.run, he]
  · intro res hres
    simp [SQLFragment.run, hres]

/-- Witness for C6: a fragment using `self` with no column context fails to
compile, and `run` fails with the same ContextError; a plain parameter
fragment compiles and `run` submits exactly that query. -/
theorem run_fail_fast_witness :
    (SQLFragment.compile (.mk ["", ""] [.selfMark] none)
        { text := "", values := [] } none none =
      .error (.contextError "The 'self' column alias has no meaning here")) ∧
    (SQLFragment.run (.mk ["", ""] [.selfMark] none)
        (fun q => q.values.length) (fun n => n + 1) =
      .error (.contextError "The 'self' column alias has no meaning here")) ∧
    (SQLFragment.compile (.mk ["SELECT ", ""] [.param (.int 3)] none)
        { text := "", values := [] } none none =
      .ok { text := "SELECT $1", values := [.int 3] }) ∧
    (SQLFragment.run (.mk ["SELECT ", ""] [.param (.int 3)] none)
        (fun q => q.values.length) (fun n => n + 1) =
      .ok ([{ text := "SELECT $1", values := [.int 3] }], 2)) := by
  have herr : SQLFragment.compile (.mk ["", ""] [.selfMark] none)
      { text := "", values := [] } none none =
      .error (.contextError "The 'self' column alias has no meaning here") := by
    simp [SQLFragment.compile, compileTail, SQLFragment.compileExpression]
  have hok : SQLFragment.compile (.mk ["SELECT ", ""] [.param (.int 3)] none)
      { text := "", values := [] } none none =
      .ok { text := "SELECT $1", values := [.int 3] } := by
    simp +decide [SQLFragment.compile, compileTail, SQLFragment.compileExpression]
  refine ⟨herr, (run_fail_fast _ (fun q => q.values.length) (fun n => n + 1)).1 _ herr,
    hok, ?_⟩
  have := (run_fail_fast (.mk ["SELECT ", ""] [.param (.int 3)] none)
    (fun q => q.values.length) (fun n => n + 1)).2 _ hok
  simpa using this

end Zapatos

namespace Zapatos

/-- C9: a `ColumnNames` entry — an explicit array element or a mapping key —
is wrapped in double quotes unconditionally; unlike a bare string identifier
expression, there is no pass-through for a name that already begins with a
quote character, so an already-quoted name comes out double-wrapped. -/
theorem colNames_quotes_unconditionally :
    (∀ (tpt : Option String) (s : String) (acc : SQLResultType) (pt cc : Option String),
      SQLFragment.compileExpression tpt (.colNames (.arr [s])) acc pt cc =
        .ok { acc with text := acc.text ++ ("\"" ++ s ++ "\"") }) ∧
    (∀ (tpt : Option String) (s : String) (v : MapVal) (acc : SQLResultType)
        (pt cc : Option String),
      SQLFragment.compileExpression tpt (.colNames (.obj [(s, v)])) acc pt cc =
        .ok { acc with text := acc.text ++ ("\"" ++ s ++ "\"") }) ∧
    (∀ (tpt : Option String) (s : String) (acc : SQLResultType) (pt cc : Option String),
      startsWithQuote s = true →
      SQLFragment.compileExpression tpt (.ident s) acc pt cc =
        .ok { acc with text := acc.text ++ s }) := by
  refine ⟨?_, ?_, ?_⟩
  · intros
    simp [SQLFragment.compileExpression, String.intercalate, String.intercalate.go]
  · intros
    simp [SQLFragment.compileExpression, sortStrings, List.insertionSort,
      List.orderedInsert, String.intercalate, String.intercalate.go]
  · intro tpt s acc pt cc hq
    simp [SQLFragment.compileExpression, hq]

/-- Witness for C9 at the already-quoted name `"a"` (with its quotes): the
`ColumnNames` forms double-wrap it while the identifier form passes it
through. -/
theorem colNames_quotes_unconditionally_witness :
    (SQLFragment.compileExpression none (.colNames (.arr ["\"a\""]))
        { text := "", values := [] } none none =
      .ok { text := "" ++ ("\"" ++ "\"a\"" ++ "\""), values := [] }) ∧
    (SQLFragment.compileExpression none (.colNames (.obj [("\"a\"", .plain (.int 1))]))
        { text := "", values := [] } none none =
      .ok { text := "" ++ ("\"" ++ "\"a\"" ++ "\""), values := [] }) ∧
    startsWithQuote "\"a\"" = true ∧
    (SQLFragment.compileExpression none (.ident "\"a\"")
        { text := "", values := [] } none none =
      .ok { text := "" ++ "\"a\"", values := [] }) := by
  refine ⟨colNames_quotes_unconditionally.1 none "\"a\"" _ none none,
    colNames_quotes_unconditionally.2.1 none "\"a\"" (.plain (.int 1)) _ none none,
    by decide,
    colNames_quotes_unconditionally.2.2 none "\"a\"" _ none none (by decide)⟩

/-- C10: every quoted name the compiler emits — a bare identifier, a
`ColumnNames` entry, a mapping key, the current column for `self`, and the
table/column pair of a `ParentColumn` — is produced by plain concatenation
of a quote, the name, and a quote; the equations hold for arbitrary names,
including names that contain a double-quote character, which are therefore
emitted unescaped inside the quoted identifier. -/
theorem quoting_plain_concatenation :
    (∀ (tpt : Option String) (s : String) (acc : SQLResultType) (pt cc : Option String),
      startsWithQuote s = false →
      SQLFragment.compileExpression tpt (.ident s) acc pt cc =
        .ok { acc with text := acc.text ++ ("\"" ++ s ++ "\"") }) ∧
    (∀ (tpt : Option String) (s : String) (acc : SQLResultType) (pt cc : Option String),
      SQLFragment.compileExpression tpt (.colNames (.arr [s])) acc pt cc =
        .ok { acc with text := acc.text ++ ("\"" ++ s ++ "\"") }) ∧
    (∀ (tpt : Option String) (col : String) (acc : SQLResultType) (pt : Option String),
      SQLFragment.compileExpression tpt .selfMark acc pt (some col) =
        .ok { acc with text := acc.text ++ ("\"" ++ col ++ "\"") }) ∧
    (∀ (t c : String) (acc : SQLResultType) (pt cc : Option String),
      SQLFragment.compileExpression (some t) (.parentCol c) acc pt cc =
        .ok { acc with text := acc.text ++ ("\"" ++ t ++ "\".\"" ++ c ++ "\"") }) ∧
    (∀ (tpt : Option String) (k : String) (v : Value) (acc : SQLResultType)
        (pt cc : Option String),
      SQLFragment.compileExpression tpt (.whereable [(k, .plain v)]) acc pt cc =
        .ok { text := acc.text ++
                ("(\"" ++ k ++ "\" = $" ++ toString (acc.values.length + 1) ++ ")"),
              values := acc.values ++ [v] }) := by
  refine ⟨?_, ?_, ?_, ?_, ?_⟩
  · intro tpt s acc pt cc hq
    simp [SQLFragment.compileExpression, hq, String.append_assoc]
  · intros
    simp [SQLFragment.compileExpression, String.intercalate, String.intercalate.go]
  · intros
    simp [SQLFragment.compileExpression, String.append_assoc]
  · intros
    simp [SQLFragment.compileExpression, String.append_assoc]
  · intro tpt k v acc pt cc
    simp [SQLFragment.compileExpression, sortByKey, List.insertionSort,
      List.orderedInsert, compileWhereable, String.append_assoc]

/-- Witness for C10 at names containing an embedded double-quote character:
the quote appears unescaped in the output. -/
theorem quoting_plain_concatenation_witness :
    startsWithQuote "a\"b" = false ∧
    (SQLFragment.compileExpression none (.ident "a\"b")
        { text := "", values := [] } none none =
      .ok { text := "" ++ ("\"" ++ "a\"b" ++ "\""), values := [] }) ∧
    (SQLFragment.compileExpression none (.colNames (.arr ["a\"b"]))
        { text := "", values := [] } none none =
      .ok { text := "" ++ ("\"" ++ "a\"b" ++ "\""), values := [] }) ∧
    (SQLFragment.compileExpression none .selfMark
        { text := "", values := [] } none (some "a\"b") =
      .ok { text := "" ++ ("\"" ++ "a\"b" ++ "\""), values := [] }) ∧
    (SQLFragment.compileExpression (some "t\"u") (.parentCol "a\"b")
        { text := "", values := [] } none none =
      .ok { text := "" ++ ("\"" ++ "t\"u" ++ "\".\"" ++ "a\"b" ++ "\""), values := [] }) ∧
    (SQLFragment.compileExpression none (.whereable [("a\"b", .plain (.int 1))])
        { text := "", values := [] } none none =
      .ok { text := "" ++ ("(\"" ++ "a\"b" ++ "\" = $" ++ toString (0 + 1) ++ ")"),
            values := [] ++ [.int 1] }) := by
  refine ⟨by decide,
    quoting_plain_concatenation.1 none "a\"b" _ none none (by decide),
    quoting_plain_concatenation.2.1 none "a\"b" _ none none,
    quoting_plain_concatenation.2.2.1 none "a\"b" _ none,
    quoting_plain_concatenation.2.2.2.1 "t\"u" "a\"b" _ none none,
    quoting_plain_concatenation.2.2.2.2 none "a\"b" (.int 1) _ none none⟩

end Zapatos

namespace Zapatos

theorem intercalate_go_append (a x s : String) (l : List String) :
    String.intercalate.go (a ++ x) s l = a ++ String.intercalate.go x s l := by
  induction l generalizing x with
  | nil => simp [String.intercalate.go]
  | cons b bs ih =>
    simp only [String.intercalate.go, String.append_assoc]
    rw [← String.append_assoc x s b, ih]

theorem intercalate_cons_cons (s a b : String) (l : List String) :
    String.intercalate s (a :: b :: l) = a ++ s ++ String.intercalate s (b :: l) := by
  simp only [String.intercalate, String.intercalate.go]
  exact intercalate_go_append (a ++ s) b s l

theorem intercalate_single (s a : String) : String.intercalate s [a] = a := rfl

/-- Separator-prefixed join: the text contributed by the non-first entries of
a separated list. -/
def sepJoin (sep : String) : List String → String
  | [] => ""
  | c :: cs => sep ++ c ++ sepJoin sep cs

theorem intercalate_eq_head_sepJoin (sep a : String) (l : List String) :
    String.intercalate sep (a :: l) = a ++ sepJoin sep l := by
  induction l generalizing a with
  | nil => simp [intercalate_single, sepJoin, String.append_empty]
  | cons b bs ih =>
    rw [intercalate_cons_cons, ih, sepJoin, String.append_assoc, String.append_assoc]

end Zapatos

namespace Zapatos

instance : IsTotal (String × MapVal) (fun a b => a.1 ≤ b.1) :=
  ⟨fun a b => le_total a.1 b.1⟩

instance : IsTrans (String × MapVal) (fun a b => a.1 ≤ b.1) :=
  ⟨fun _ _ _ h₁ h₂ => le_trans h₁ h₂⟩

instance : IsAntisymm (String × MapVal) (fun a b => a.1 < b.1) :=
  ⟨fun _ _ h₁ h₂ => absurd (lt_trans h₁ h₂) (lt_irrefl _)⟩

/-- Sorting the entries of two mappings that hold the same key-value pairs
(in any insertion order, keys distinct) gives the same sorted entry list. -/
theorem sortByKey_perm_eq {m₁ m₂ : List (String × MapVal)} (h : m₁.Perm m₂)
    (hnd : (m₁.map Prod.fst).Nodup) :
    sortByKey m₁ = sortByKey m₂ := by
  have p₁ : (sortByKey m₁).Perm m₁ := List.perm_insertionSort _ m₁
  have p₂ : (sortByKey m₂).Perm m₂ := List.perm_insertionSort _ m₂
  have p : (sortByKey m₁).Perm (sortByKey m₂) := (p₁.trans h).trans p₂.symm
  have keyNe : ∀ l : List (String × MapVal), (l.map Prod.fst).Nodup →
      List.Sorted (fun a b : String × MapVal => a.1 ≤ b.1) l →
      List.Sorted (fun a b : String × MapVal => a.1 < b.1) l := by
    intro l hl hs
    have hne : List.Pairwise (fun a b : String × MapVal => a.1 ≠ b.1) l := by
      simpa [List.Nodup, List.pairwise_map] using hl
    exact (hs.and hne).imp (fun hab => lt_of_le_of_ne hab.1 hab.2)
  have hnd₁ : ((sortByKey m₁).map Prod.fst).Nodup :=
    ((p₁.map Prod.fst).nodup_iff).mpr hnd
  have hnd₂ : ((sortByKey m₂).map Prod.fst).Nodup :=
    ((p₂.map Prod.fst).nodup_iff).mpr (((h.map Prod.fst).nodup_iff).mp hnd)
  exact List.eq_of_perm_of_sorted p
    (keyNe _ hnd₁ (List.sorted_insertionSort _ m₁))
    (keyNe _ hnd₂ (List.sorted_insertionSort _ m₂))

/-- The key order used by `ColumnNames` over an object and the entry order
used by `ColumnValues` / `Whereable` coincide: sorting the entries and then
projecting the keys is the same as sorting the keys. -/
theorem map_fst_sortByKey (m : List (String × MapVal)) :
    (sortByKey m).map Prod.fst = sortStrings (m.map Prod.fst) := by
  have go : ∀ (p : String × MapVal) (l : List (String × MapVal)),
      (List.orderedInsert (fun a b => a.1 ≤ b.1) p l).map Prod.fst =
        List.orderedInsert (fun a b => a ≤ b) p.1 (l.map Prod.fst) := by
    intro p l
    induction l with
    | nil => simp [List.orderedInsert]
    | cons q rest ih =>
      simp only [List.orderedInsert, List.map_cons]
      by_cases hle : p.1 ≤ q.1
      · rw [if_pos hle, if_pos hle]
        simp
      · rw [if_neg hle, if_neg hle]
        simp only [List.map_cons]
        rw [ih]
  induction m with
  | nil => simp [sortByKey, sortStrings, List.insertionSort]
  | cons p rest ih =>
    simp only [sortByKey, sortStrings, List.insertionSort, List.map_cons] at ih ⊢
    rw [go, ih]

end Zapatos

namespace Zapatos

/-- Whether a mapping value is a nested fragment (`instanceof SQLFragment`). -/
def MapVal.isFrag : MapVal → Bool
  | .frag _ => true
  | _ => false

/-- The conjuncts the spec prescribes for a sorted `Mapping` entry list with
no nested-fragment values, together with the bound values: a `ParentColumn`
value gives the correlation condition `"key" = "parentTable"."col"` and binds
nothing; any other value gives `"key" = $n` and binds the value (the
`Default` sentinel is bound like any other value); placeholders are numbered
from `n + 1` where `n` counts the values already bound. -/
def mappingConjuncts (t : String) (n : Nat) :
    List (String × MapVal) → List String × List Value
  | [] => ([], [])
  | (k, v) :: rest =>
    match v with
    | .parentCol c =>
      let p := mappingConjuncts t n rest
      (("\"" ++ k ++ "\" = \"" ++ t ++ "\".\"" ++ c ++ "\"") :: p.1, p.2)
    | .frag _ =>
      mappingConjuncts t n rest
    | .defaultMark =>
      let p := mappingConjuncts t (n + 1) rest
      (("\"" ++ k ++ "\" = $" ++ toString (n + 1)) :: p.1, Value.defaultSym :: p.2)
    | .plain w =>
      let p := mappingConjuncts t (n + 1) rest
      (("\"" ++ k ++ "\" = $" ++ toString (n + 1)) :: p.1, w :: p.2)

theorem compileWhereable_sepJoin (tpt pt : Option String) (t : String) (cc : Option String)
    (hpt : (if tpt.isSome then tpt else pt) = some t)
    (entries : List (String × MapVal))
    (hnf : ∀ p ∈ entries, p.2.isFrag = false) :
    ∀ acc : SQLResultType,
    compileWhereable tpt entries false acc pt cc =
      .ok { text := acc.text ++
              sepJoin " AND " (mappingConjuncts t acc.values.length entries).1,
            values := acc.values ++ (mappingConjuncts t acc.values.length entries).2 } := by
  induction entries with
  | nil =>
    intro acc
    simp [compileWhereable, mappingConjuncts, sepJoin, String.append_empty]
  | cons p rest ih =>
    obtain ⟨k, v⟩ := p
    have hv : v.isFrag = false := hnf (k, v) (by simp)
    have hrest : ∀ q ∈ rest, q.2.isFrag = false := fun q hq => hnf q (by simp [hq])
    intro acc
    cases v with
    | frag f => simp [MapVal.isFrag] at hv
    | parentCol c =>
      simp only [compileWhereable, SQLFragment.compileExpression]
      rw [hpt]
      simp only
      rw [ih hrest]
      simp only [mappingConjuncts, sepJoin, Except.ok.injEq, SQLResultType.mk.injEq]
      constructor
      · apply String.ext
        simp [String.data_append, List.append_assoc]
      · rfl
    | defaultMark =>
      simp only [compileWhereable, SQLFragment.compileExpression]
      rw [ih hrest]
      simp only [mappingConjuncts, sepJoin, Except.ok.injEq, SQLResultType.mk.injEq]
      constructor
      · apply String.ext
        simp [String.data_append, List.append_assoc]
      · simp
    | plain w =>
      simp only [compileWhereable, SQLFragment.compileExpression]
      rw [ih hrest]
      simp only [mappingConjuncts, sepJoin, Except.ok.injEq, SQLResultType.mk.injEq]
      constructor
      · apply String.ext
        simp [String.data_append, List.append_assoc]
      · simp

end Zapatos

namespace Zapatos

theorem compileWhereable_intercalate (tpt pt : Option String) (t : String)
    (cc : Option String) (hpt : (if tpt.isSome then tpt else pt) = some t)
    (entries : List (String × MapVal)) (hne : entries ≠ [])
    (hnf : ∀ p ∈ entries, p.2.isFrag = false) :
    ∀ acc : SQLResultType,
    compileWhereable tpt entries true acc pt cc =
      .ok { text := acc.text ++
              String.intercalate " AND " (mappingConjuncts t acc.values.length entries).1,
            values := acc.values ++ (mappingConjuncts t acc.values.length entries).2 } := by
  match entries with
  | [] => exact absurd rfl hne
  | (k, v) :: rest =>
    have hv : v.isFrag = false := hnf (k, v) (by simp)
    have hrest : ∀ q ∈ rest, q.2.isFrag = false := fun q hq => hnf q (by simp [hq])
    intro acc
    cases v with
    | frag f => simp [MapVal.isFrag] at hv
    | parentCol c =>
      simp only [compileWhereable, SQLFragment.compileExpression]
      rw [hpt]
      simp only
      rw [compileWhereable_sepJoin tpt pt t cc hpt rest hrest]
      simp only [mappingConjuncts, Except.ok.injEq, SQLResultType.mk.injEq]
      rw [intercalate_eq_head_sepJoin]
      constructor
      · apply String.ext
        simp [String.data_append, List.append_assoc]
      · rfl
    | defaultMark =>
      simp only [compileWhereable, SQLFragment.compileExpression]
      rw [compileWhereable_sepJoin tpt pt t cc hpt rest hrest]
      simp only [mappingConjuncts, Except.ok.injEq, SQLResultType.mk.injEq]
      rw [intercalate_eq_head_sepJoin]
      constructor
      · apply String.ext
        simp [String.data_append, List.append_assoc]
      · simp
    | plain w =>
      simp only [compileWhereable, SQLFragment.compileExpression]
      rw [compileWhereable_sepJoin tpt pt t cc hpt rest hrest]
      simp only [mappingConjuncts, Except.ok.injEq, SQLResultType.mk.injEq]
      rw [intercalate_eq_head_sepJoin]
      constructor
      · apply String.ext
        simp [String.data_append, List.append_assoc]
      · simp

end Zapatos

namespace Zapatos

/-- C2: compiling an empty `Whereable` mapping appends exactly the tautology
literal `TRUE`; compiling a non-empty mapping (values not nested fragments)
appends a parenthesized conjunction whose conjuncts follow the ordinally
sorted key order, separated by `AND`, each conjunct being
`"key" = "parentTable"."col"` for a `ParentColumn` value and `"key" = $n`
with the value appended to the values list otherwise; a nested-fragment
value instead contributes `(<compiled fragment>)`; and the compiled output
is independent of the mapping's insertion order. -/
theorem mapping_where_clause :
    (∀ (tpt : Option String) (acc : SQLResultType) (pt cc : Option String),
      SQLFragment.compileExpression tpt (.whereable []) acc pt cc =
        .ok { acc with text := acc.text ++ "TRUE" }) ∧
    (∀ (tpt pt : Option String) (t : String) (m : List (String × MapVal))
        (acc : SQLResultType) (cc : Option String),
      (if tpt.isSome then tpt else pt) = some t → m ≠ [] →
      (∀ p ∈ m, p.2.isFrag = false) →
      SQLFragment.compileExpression tpt (.whereable m) acc pt cc =
        .ok { text := acc.text ++
                ("(" ++ String.intercalate " AND "
                  (mappingConjuncts t acc.values.length (sortByKey m)).1 ++ ")"),
              values := acc.values ++
                (mappingConjuncts t acc.values.length (sortByKey m)).2 }) ∧
    (∀ (tpt : Option String) (k : String) (f : SQLFragment) (acc : SQLResultType)
        (pt cc : Option String),
      SQLFragment.compileExpression tpt (.whereable [(k, .frag f)]) acc pt cc =
        (match f.compile { acc with text := acc.text ++ "((" }
            (if tpt.isSome then tpt else pt) (some k) with
         | .error e => .error e
         | .ok r => .ok { r with text := r.text ++ "))" })) ∧
    (∀ (tpt : Option String) (m₁ m₂ : List (String × MapVal)) (acc : SQLResultType)
        (pt cc : Option String),
      m₁.Perm m₂ → (m₁.map Prod.fst).Nodup →
      SQLFragment.compileExpression tpt (.whereable m₁) acc pt cc =
        SQLFragment.compileExpression tpt (.whereable m₂) acc pt cc) := by
  refine ⟨?_, ?_, ?_, ?_⟩
  · intros
    simp [SQLFragment.compileExpression, sortByKey, List.insertionSort]
  · intro tpt pt t m acc cc hpt hne hnf
    have p : (sortByKey m).Perm m := List.perm_insertionSort _ m
    have hsne : sortByKey m ≠ [] := by
      intro h0
      rw [h0] at p
      exact hne p.symm.eq_nil
    have hnf' : ∀ q ∈ sortByKey m, q.2.isFrag = false := fun q hq => hnf q (p.subset hq)
    have hempty : (sortByKey m).isEmpty = false := by
      simpa [List.isEmpty_iff] using hsne
    have hpt' : (if tpt.isSome then tpt else (if tpt.isSome then tpt else pt)) = some t := by
      cases tpt <;> simpa using hpt
    simp only [SQLFragment.compileExpression, hempty, Bool.false_eq_true, if_false]
    rw [compileWhereable_intercalate tpt (if tpt.isSome then tpt else pt) t cc hpt'
      (sortByKey m) hsne hnf' { acc with text := acc.text ++ "(" }]
    simp only [Except.ok.injEq, SQLResultType.mk.injEq]
    constructor
    · apply String.ext
      simp [String.data_append, List.append_assoc]
    · trivial
  · intro tpt k f acc pt cc
    have hacc : ({ text := (acc.text ++ "(") ++ "(", values := acc.values } : SQLResultType) =
        { acc with text := acc.text ++ "((" } := by
      simp [String.append_assoc]
    have hidem : (if tpt.isSome then tpt else (if tpt.isSome then tpt else pt)) =
        (if tpt.isSome then tpt else pt) := by
      cases tpt <;> simp
    simp only [SQLFragment.compileExpression, compileWhereable, sortByKey,
      List.insertionSort, List.orderedInsert, List.isEmpty_cons, Bool.false_eq_true,
      if_false, if_true, hidem]
    rw [hacc]
    cases hres : f.compile { acc with text := acc.text ++ "((" }
        (if tpt.isSome then tpt else pt) (some k) with
    | error e => simp
    | ok r =>
      simp only [compileWhereable, Except.ok.injEq, SQLResultType.mk.injEq]
      constructor
      · apply String.ext
        simp [String.data_append, List.append_assoc]
      · trivial
  · intro tpt m₁ m₂ acc pt cc hperm hnd
    simp only [SQLFragment.compileExpression]
    rw [sortByKey_perm_eq hperm hnd]

end Zapatos

namespace Zapatos

/-- Whether a mapping value is a plain (opaque) value. -/
def MapVal.isPlain : MapVal → Bool
  | .plain _ => true
  | _ => false

/-- The plain values of an entry list, in order. -/
def plainValues (l : List (String × MapVal)) : List Value :=
  l.filterMap (fun p => match p.2 with | .plain w => some w | _ => none)

theorem compileColValues_sepJoin (tpt pt cc : Option String)
    (entries : List (String × MapVal))
    (hpl : ∀ p ∈ entries, p.2.isPlain = true) :
    ∀ acc : SQLResultType,
    compileColValues tpt entries false acc pt cc =
      .ok { text := acc.text ++ sepJoin ", "
              ((List.range' (acc.values.length + 1) entries.length).map
                (fun i => "$" ++ toString i)),
            values := acc.values ++ plainValues entries } := by
  induction entries with
  | nil =>
    intro acc
    simp [compileColValues, plainValues, sepJoin, String.append_empty]
  | cons p rest ih =>
    obtain ⟨k, v⟩ := p
    have hv : v.isPlain = true := hpl (k, v) (by simp)
    have hrest : ∀ q ∈ rest, q.2.isPlain = true := fun q hq => hpl q (by simp [hq])
    intro acc
    cases v with
    | frag f => simp [MapVal.isPlain] at hv
    | parentCol c => simp [MapVal.isPlain] at hv
    | defaultMark => simp [MapVal.isPlain] at hv
    | plain w =>
      simp only [compileColValues, SQLFragment.compileExpression]
      rw [ih hrest]
      simp only [plainValues, List.filterMap_cons, List.length_cons, List.range',
        List.map_cons, sepJoin, Except.ok.injEq, SQLResultType.mk.injEq]
      constructor
      · apply String.ext
        simp [String.data_append, List.append_assoc]
      · simp [plainValues]

theorem compileColValues_intercalate (tpt pt cc : Option String)
    (entries : List (String × MapVal))
    (hpl : ∀ p ∈ entries, p.2.isPlain = true) :
    ∀ acc : SQLResultType,
    compileColValues tpt entries true acc pt cc =
      .ok { text := acc.text ++ String.intercalate ", "
              ((List.range' (acc.values.length + 1) entries.length).map
                (fun i => "$" ++ toString i)),
            values := acc.values ++ plainValues entries } := by
  match entries with
  | [] =>
    intro acc
    simp [compileColValues, plainValues, String.append_empty, String.intercalate]
  | (k, v) :: rest =>
    have hv : v.isPlain = true := hpl (k, v) (by simp)
    have hrest : ∀ q ∈ rest, q.2.isPlain = true := fun q hq => hpl q (by simp [hq])
    intro acc
    cases v with
    | frag f => simp [MapVal.isPlain] at hv
    | parentCol c => simp [MapVal.isPlain] at hv
    | defaultMark => simp [MapVal.isPlain] at hv
    | plain w =>
      simp only [compileColValues, SQLFragment.compileExpression]
      rw [compileColValues_sepJoin tpt pt cc rest hrest]
      simp only [plainValues, List.filterMap_cons, List.length_cons, List.range',
        List.map_cons, Except.ok.injEq, SQLResultType.mk.injEq]
      rw [intercalate_eq_head_sepJoin]
      constructor
      · apply String.ext
        simp [String.data_append, List.append_assoc]
      · simp [plainValues]

end Zapatos

namespace Zapatos

instance : IsAntisymm String (fun a b : String => a < b) :=
  ⟨fun _ _ h₁ h₂ => absurd (lt_trans h₁ h₂) (lt_irrefl _)⟩

/-- Sorting two key lists holding the same distinct keys in any order gives
the same sorted list. -/
theorem sortStrings_perm_eq {l₁ l₂ : List String} (h : l₁.Perm l₂) (hnd : l₁.Nodup) :
    sortStrings l₁ = sortStrings l₂ := by
  have p₁ : (sortStrings l₁).Perm l₁ := List.perm_insertionSort _ l₁
  have p₂ : (sortStrings l₂).Perm l₂ := List.perm_insertionSort _ l₂
  have p : (sortStrings l₁).Perm (sortStrings l₂) := (p₁.trans h).trans p₂.symm
  have strict : ∀ l : List String, l.Nodup →
      List.Sorted (fun a b : String => a ≤ b) l →
      List.Sorted (fun a b : String => a < b) l := by
    intro l hl hs
    exact (hs.and hl).imp (fun hab => lt_of_le_of_ne hab.1 hab.2)
  exact List.eq_of_perm_of_sorted p
    (strict _ (p₁.nodup_iff.mpr hnd) (List.sorted_insertionSort _ l₁))
    (strict _ (p₂.nodup_iff.mpr (h.nodup_iff.mp hnd)) (List.sorted_insertionSort _ l₂))

/-- C3: `ColumnNames` over a mapping and `ColumnValues` over the same mapping
iterate the keys in the same ordinally sorted order, independent of insertion
order: sorting the entries and projecting the keys equals sorting the keys;
`ColumnNames` emits the comma-joined quoted sorted keys; `ColumnValues` over
an all-plain mapping emits comma-separated placeholders `$n, $n+1, ...` and
binds the values in sorted key order; a nested-fragment or `DEFAULT` value is
compiled directly under `currentColumn` = its key; and both forms are
insertion-order independent. -/
theorem colNames_colValues_lockstep :
    (∀ m : List (String × MapVal),
      (sortByKey m).map Prod.fst = sortStrings (m.map Prod.fst)) ∧
    (∀ (tpt : Option String) (m : List (String × MapVal)) (acc : SQLResultType)
        (pt cc : Option String),
      SQLFragment.compileExpression tpt (.colNames (.obj m)) acc pt cc =
        .ok { acc with text := acc.text ++
                (String.intercalate ", "
                  ((sortStrings (m.map Prod.fst)).map (fun k => "\"" ++ k ++ "\""))) }) ∧
    (∀ (tpt : Option String) (m : List (String × MapVal)) (acc : SQLResultType)
        (pt cc : Option String),
      (∀ p ∈ m, p.2.isPlain = true) →
      SQLFragment.compileExpression tpt (.colValues m) acc pt cc =
        .ok { text := acc.text ++
                (String.intercalate ", "
                  ((List.range' (acc.values.length + 1) m.length).map
                    (fun i => "$" ++ toString i))),
              values := acc.values ++ plainValues (sortByKey m) }) ∧
    (∀ (tpt : Option String) (k : String) (f : SQLFragment) (acc : SQLResultType)
        (pt cc : Option String),
      SQLFragment.compileExpression tpt (.colValues [(k, .frag f)]) acc pt cc =
        f.compile acc (if tpt.isSome then tpt else pt) (some k)) ∧
    (∀ (tpt : Option String) (k : String) (acc : SQLResultType) (pt cc : Option String),
      SQLFragment.compileExpression tpt (.colValues [(k, .defaultMark)]) acc pt cc =
        .ok { acc with text := acc.text ++ "DEFAULT" }) ∧
    (∀ (tpt : Option String) (m₁ m₂ : List (String × MapVal)) (acc : SQLResultType)
        (pt cc : Option String),
      m₁.Perm m₂ → (m₁.map Prod.fst).Nodup →
      SQLFragment.compileExpression tpt (.colNames (.obj m₁)) acc pt cc =
          SQLFragment.compileExpression tpt (.colNames (.obj m₂)) acc pt cc ∧
        SQLFragment.compileExpression tpt (.colValues m₁) acc pt cc =
          SQLFragment.compileExpression tpt (.colValues m₂) acc pt cc) := by
  refine ⟨map_fst_sortByKey, ?_, ?_, ?_, ?_, ?_⟩
  · intros
    simp [SQLFragment.compileExpression]
  · intro tpt m acc pt cc hpl
    have p : (sortByKey m).Perm m := List.perm_insertionSort _ m
    have hpl' : ∀ q ∈ sortByKey m, q.2.isPlain = true := fun q hq => hpl q (p.subset hq)
    simp only [SQLFragment.compileExpression]
    rw [compileColValues_intercalate tpt (if tpt.isSome then tpt else pt) cc
      (sortByKey m) hpl' acc, p.length_eq]
  · intro tpt k f acc pt cc
    have hidem : (if tpt.isSome then tpt else (if tpt.isSome then tpt else pt)) =
        (if tpt.isSome then tpt else pt) := by
      cases tpt <;> simp
    simp only [SQLFragment.compileExpression, compileColValues, sortByKey,
      List.insertionSort, List.orderedInsert, if_true, hidem]
    cases hres : f.compile acc (if tpt.isSome then tpt else pt) (some k) with
    | error e => simp [hres]
    | ok r => simp [hres, compileColValues]
  · intro tpt k acc pt cc
    simp [SQLFragment.compileExpression, compileColValues, sortByKey,
      List.insertionSort, List.orderedInsert]
  · intro tpt m₁ m₂ acc pt cc hperm hnd
    constructor
    · simp only [SQLFragment.compileExpression]
      rw [sortStrings_perm_eq (hperm.map Prod.fst) (by simpa using hnd)]
    · simp only [SQLFragment.compileExpression]
      rw [sortByKey_perm_eq hperm hnd]

end Zapatos

namespace Zapatos

/-- Witness for C2: `Mapping({"a": 1, "b": 2})`, in both insertion orders,
compiles to `("a" = $1 AND "b" = $2)` with values `[1, 2]`; the empty mapping
compiles to `TRUE`. -/
theorem mapping_where_clause_witness :
    (SQLFragment.compileExpression none (.whereable []) { text := "", values := [] }
        none none = .ok { text := "TRUE", values := [] }) ∧
    ((if (some "t" : Option String).isSome then some "t" else (none : Option String)) =
      some "t") ∧
    ([("b", MapVal.plain (.int 2)), ("a", MapVal.plain (.int 1))] ≠ []) ∧
    (∀ p ∈ [("b", MapVal.plain (.int 2)), ("a", MapVal.plain (.int 1))],
      p.2.isFrag = false) ∧
    (SQLFragment.compileExpression (some "t")
        (.whereable [("b", .plain (.int 2)), ("a", .plain (.int 1))])
        { text := "", values := [] } none none =
      .ok { text := "(\"a\" = $1 AND \"b\" = $2)", values := [.int 1, .int 2] }) ∧
    (SQLFragment.compileExpression (some "t")
        (.whereable [("a", .plain (.int 1)), ("b", .plain (.int 2))])
        { text := "", values := [] } none none =
      .ok { text := "(\"a\" = $1 AND \"b\" = $2)", values := [.int 1, .int 2] }) ∧
    (SQLFragment.compileExpression (some "t")
        (.whereable [("b", .plain (.int 2)), ("a", .plain (.int 1))])
        { text := "", values := [] } none none =
      SQLFragment.compileExpression (some "t")
        (.whereable [("a", .plain (.int 1)), ("b", .plain (.int 2))])
        { text := "", values := [] } none none) := by
  have h1 : (if (some "t" : Option String).isSome then some "t" else (none : Option String)) =
      some "t" := by simp
  have h2 : [("b", MapVal.plain (.int 2)), ("a", MapVal.plain (.int 1))] ≠ [] := by simp
  have h3 : ∀ p ∈ [("b", MapVal.plain (.int 2)), ("a", MapVal.plain (.int 1))],
      p.2.isFrag = false := by
    simp [List.forall_mem_cons, MapVal.isFrag]
  have h2' : [("a", MapVal.plain (.int 1)), ("b", MapVal.plain (.int 2))] ≠ [] := by simp
  have h3' : ∀ p ∈ [("a", MapVal.plain (.int 1)), ("b", MapVal.plain (.int 2))],
      p.2.isFrag = false := by
    simp [List.forall_mem_cons, MapVal.isFrag]
  have hperm : [("b", MapVal.plain (.int 2)), ("a", MapVal.plain (.int 1))].Perm
      [("a", MapVal.plain (.int 1)), ("b", MapVal.plain (.int 2))] :=
    List.Perm.swap _ _ _
  have hnd : ([("b", MapVal.plain (.int 2)), ("a", MapVal.plain (.int 1))].map
      Prod.fst).Nodup := by simp
  refine ⟨mapping_where_clause.1 none { text := "", values := [] } none none,
    h1, h2, h3, ?_, ?_,
    mapping_where_clause.2.2.2 (some "t") _ _ { text := "", values := [] } none none hperm hnd⟩
  · have happ := mapping_where_clause.2.1 (some "t") none "t"
      [("b", MapVal.plain (.int 2)), ("a", MapVal.plain (.int 1))]
      { text := "", values := [] } none h1 h2 h3
    simpa +decide [mappingConjuncts, sortByKey, List.insertionSort, List.orderedInsert,
      String.intercalate, String.intercalate.go] using happ
  · have happ := mapping_where_clause.2.1 (some "t") none "t"
      [("a", MapVal.plain (.int 1)), ("b", MapVal.plain (.int 2))]
      { text := "", values := [] } none h1 h2' h3'
    simpa +decide [mappingConjuncts, sortByKey, List.insertionSort, List.orderedInsert,
      String.intercalate, String.intercalate.go] using happ

/-- Witness for C3: over the mapping `{b: 2, a: 1}` (insertion order b, a),
`ColumnNames` compiles to `"a", "b"` and `ColumnValues` to `$1, $2` with
values `[1, 2]`, and both are insertion-order independent. -/
theorem colNames_colValues_lockstep_witness :
    (SQLFragment.compileExpression none
        (.colNames (.obj [("b", .plain (.int 2)), ("a", .plain (.int 1))]))
        { text := "", values := [] } none none =
      .ok { text := "\"a\", \"b\"", values := [] }) ∧
    (∀ p ∈ [("b", MapVal.plain (.int 2)), ("a", MapVal.plain (.int 1))],
      p.2.isPlain = true) ∧
    (SQLFragment.compileExpression none
        (.colValues [("b", .plain (.int 2)), ("a", .plain (.int 1))])
        { text := "", values := [] } none none =
      .ok { text := "$1, $2", values := [.int 1, .int 2] }) ∧
    ((sortByKey [("b", MapVal.plain (.int 2)), ("a", MapVal.plain (.int 1))]).map
        Prod.fst =
      sortStrings ([("b", MapVal.plain (.int 2)), ("a", MapVal.plain (.int 1))].map
        Prod.fst)) ∧
    (SQLFragment.compileExpression none
        (.colNames (.obj [("b", .plain (.int 2)), ("a", .plain (.int 1))]))
        { text := "", values := [] } none none =
      SQLFragment.compileExpression none
        (.colNames (.obj [("a", .plain (.int 1)), ("b", .plain (.int 2))]))
        { text := "", values := [] } none none) ∧
    (SQLFragment.compileExpression none
        (.colValues [("b", .plain (.int 2)), ("a", .plain (.int 1))])
        { text := "", values := [] } none none =
      SQLFragment.compileExpression none
        (.colValues [("a", .plain (.int 1)), ("b", .plain (.int 2))])
        { text := "", values := [] } none none) := by
  have hpl : ∀ p ∈ [("b", MapVal.plain (.int 2)), ("a", MapVal.plain (.int 1))],
      p.2.isPlain = true := by
    simp [List.forall_mem_cons, MapVal.isPlain]
  have hperm : [("b", MapVal.plain (.int 2)), ("a", MapVal.plain (.int 1))].Perm
      [("a", MapVal.plain (.int 1)), ("b", MapVal.plain (.int 2))] :=
    List.Perm.swap _ _ _
  have hnd : ([("b", MapVal.plain (.int 2)), ("a", MapVal.plain (.int 1))].map
      Prod.fst).Nodup := by simp
  have hinv := colNames_colValues_lockstep.2.2.2.2.2 none _ _
    { text := "", values := [] } none none hperm hnd
  refine ⟨?_, hpl, ?_, colNames_colValues_lockstep.1 _, hinv.1, hinv.2⟩
  · have happ := colNames_colValues_lockstep.2.1 none
      [("b", MapVal.plain (.int 2)), ("a", MapVal.plain (.int 1))]
      { text := "", values := [] } none none
    simpa +decide [sortStrings, List.insertionSort, List.orderedInsert,
      String.intercalate, String.intercalate.go] using happ
  · have happ := colNames_colValues_lockstep.2.2.1 none
      [("b", MapVal.plain (.int 2)), ("a", MapVal.plain (.int 1))]
      { text := "", values := [] } none none hpl
    simpa +decide [plainValues, sortByKey, List.insertionSort, List.orderedInsert,
      List.range', String.intercalate, String.intercalate.go] using happ

end Zapatos
